import Mathlib

/-!
Verification development for the `rust_utc_time` repository (src/src/main.rs).

The program parses a time (optionally with a date) from its command-line
arguments using chrono format strings, normalizes two-digit years, and
converts between Brisbane wall-clock time and UTC using chrono-tz.

The shallow embedding below translates:
  * chrono's strftime-style parsing of the five format strings that the
    program uses ("%H:%M" and the four "%H:%M %d-%m-%Y"-family formats),
    at the character level, following chrono's `parse_internal` semantics
    (numeric items skip leading whitespace and scan 1..=max digits, literal
    items match exactly, a `Space` item skips whitespace, and the whole
    input must be consumed);
  * chrono's field resolution (`set_hour` rejects hours above 23 at scan
    time, minutes and calendar dates are validated when the final
    `NaiveDate`/`NaiveTime` is built, a lone two-digit year r maps to
    r + 2000 for r < 69 and r + 1900 otherwise);
  * the repository's own functions `map_two_digit_year`,
    `fix_two_digit_year` and `parse_input`, and the conversion/printing
    logic of `main` for menu choices "1" and "2";
  * chrono-tz's fixed-timespan representation of the Australia/Brisbane
    timezone (transition table transcribed from the tz database) together
    with `offset_from_utc_datetime` and `from_local_datetime`.

Machine integers are modelled as Nat/Int; chrono's i64/i32 overflow checks
are kept as explicit range guards.  The `expect` (panic) inside
`fix_two_digit_year` is modelled as the `none` case of an `Option`.
-/

/-! ### Character-level scanning (chrono `scan.rs` / `parse.rs`) -/

/-- ASCII digit test, as used by chrono's `scan::number` (which only
accepts bytes b'0'..=b'9'). -/
def isDigitB (c : Char) : Bool := 48 ≤ c.toNat && c.toNat ≤ 57

/-- Whitespace test used for `str::trim_start` in chrono's parser.  The
inputs of this program are built from command-line arguments, so only the
ASCII whitespace characters are modelled. -/
def isWsB (c : Char) : Bool :=
  c.toNat = 32 || c.toNat = 9 || c.toNat = 10 || c.toNat = 13 || c.toNat = 11 || c.toNat = 12

/-- Numeric value of an ASCII digit character. -/
def digitVal (c : Char) : Nat := c.toNat - 48

/-- Rust `str::trim_start`: drop leading whitespace. -/
def trimL (l : List Char) : List Char := l.dropWhile isWsB

/-- chrono `Item::Literal` for a one-character literal: the input must
start with exactly that character. -/
def expectChar (c : Char) : List Char → Option (List Char)
  | x :: rest => if x = c then some rest else none
  | [] => none

/-- Helper for `scanNumber`: consume up to `max` further digit characters,
accumulating the value.  Mirrors the loop of chrono `scan::number`. -/
def scanDigitsAux : Nat → Nat → List Char → Nat × List Char
  | _, acc, [] => (acc, [])
  | 0, acc, l => (acc, l)
  | Nat.succ k, acc, c :: rest =>
    if isDigitB c then scanDigitsAux k (acc * 10 + digitVal c) rest
    else (acc, c :: rest)

/-- chrono `scan::number(s, 1, max)`: consume 1..=max leading ASCII digits;
fail when the input does not start with a digit. -/
def scanNumber (max : Nat) (l : List Char) : Option (Nat × List Char) :=
  match l with
  | c :: rest => if isDigitB c then some (scanDigitsAux (max - 1) (digitVal c) rest) else none
  | [] => none

/-- chrono `scan::number(s, 1, usize::MAX)` after a sign: consume every
leading digit. -/
def scanAllDigits : List Char → Nat → Nat × List Char
  | [], acc => (acc, [])
  | c :: rest, acc =>
    if isDigitB c then scanAllDigits rest (acc * 10 + digitVal c) else (acc, c :: rest)

/-! ### Calendar model (chrono `NaiveDate` / `NaiveDateTime`) -/

/-- Proleptic Gregorian leap-year rule, as implemented by chrono's year
flags. -/
def isLeapYear (y : Int) : Bool :=
  decide (y % 4 = 0 ∧ (¬ y % 100 = 0 ∨ y % 400 = 0))

/-- Number of days of month `m` (1-12) of year `y`; 0 for an invalid
month index. -/
def daysInMonth (y : Int) (m : Nat) : Nat :=
  match m with
  | 1 => 31
  | 2 => if isLeapYear y then 29 else 28
  | 3 => 31
  | 4 => 30
  | 5 => 31
  | 6 => 30
  | 7 => 31
  | 8 => 31
  | 9 => 30
  | 10 => 31
  | 11 => 30
  | 12 => 31
  | _ => 0

/-- A calendar date, the raw data of a chrono `NaiveDate`. -/
structure Date where
  year : Int
  month : Nat
  day : Nat
deriving DecidableEq

/-- Month/day validity of a date (ignoring chrono's year-range limits). -/
def calValid (d : Date) : Prop :=
  1 ≤ d.month ∧ d.month ≤ 12 ∧ 1 ≤ d.day ∧ d.day ≤ daysInMonth d.year d.month

instance (d : Date) : Decidable (calValid d) := by
  unfold calValid; infer_instance

/-- chrono's representable year range (`MIN_YEAR`/`MAX_YEAR`). -/
def yearInRange (y : Int) : Prop := -262144 ≤ y ∧ y ≤ 262143

instance (y : Int) : Decidable (yearInRange y) := by
  unfold yearInRange; infer_instance

/-- Full validity of a date as enforced by chrono's `NaiveDate` type. -/
def dateValid (d : Date) : Prop := calValid d ∧ yearInRange d.year

instance (d : Date) : Decidable (dateValid d) := by
  unfold dateValid; infer_instance

/-- chrono `NaiveDate::from_ymd_opt`. -/
def from_ymd_opt (y : Int) (m d : Nat) : Option Date :=
  if dateValid ⟨y, m, d⟩ then some ⟨y, m, d⟩ else none

/-- A calendar-naive date-time: a date plus the second of the day.  The
program only ever constructs values with zero seconds within the minute,
but the internal UTC representation of zoned values needs second
precision (the pre-1895 Brisbane offset is 10:12:08). -/
structure NaiveDateTime where
  date : Date
  sod : Int
deriving DecidableEq

/-- Validity invariant of a chrono `NaiveDateTime` in this model. -/
def ndtValid (n : NaiveDateTime) : Prop :=
  dateValid n.date ∧ 0 ≤ n.sod ∧ n.sod < 86400

instance (n : NaiveDateTime) : Decidable (ndtValid n) := by
  unfold ndtValid; infer_instance

/-- Calendar successor of a date. -/
def nextDate (d : Date) : Date :=
  if d.day < daysInMonth d.year d.month then ⟨d.year, d.month, d.day + 1⟩
  else if d.month < 12 then ⟨d.year, d.month + 1, 1⟩
  else ⟨d.year + 1, 1, 1⟩

/-- Calendar predecessor of a date. -/
def prevDate (d : Date) : Date :=
  if 2 ≤ d.day then ⟨d.year, d.month, d.day - 1⟩
  else if 2 ≤ d.month then ⟨d.year, d.month - 1, daysInMonth d.year (d.month - 1)⟩
  else ⟨d.year - 1, 12, 31⟩

/-- Add a signed number of seconds with `-86400 < o < 86400` to a naive
date-time (the only additions the program performs are timezone offsets,
all strictly smaller than one day). -/
def addSecs (n : NaiveDateTime) (o : Int) : NaiveDateTime :=
  let ns := n.sod + o
  if ns < 0 then ⟨prevDate n.date, ns + 86400⟩
  else if ns < 86400 then ⟨n.date, ns⟩
  else ⟨nextDate n.date, ns - 86400⟩

/-- Month adjusted so that the year runs March..February (calendar day
counting in the style used by chrono's internal day arithmetic). -/
def mpOf (m : Nat) : Int := if 2 < m then (m : Int) - 3 else (m : Int) + 9

/-- Day of the March-based year, 0 for March 1st. -/
def doyOf (m d : Nat) : Int := (153 * mpOf m + 2) / 5 + (d : Int) - 1

/-- Year shifted down by one for January and February. -/
def yadj (d : Date) : Int := if d.month ≤ 2 then d.year - 1 else d.year

/-- Days from the epoch reference to the start (March 1st) of the adjusted
year `y`. -/
def yearDays (y : Int) : Int :=
  y / 400 * 146097 + (y - 400 * (y / 400)) * 365 +
    (y - 400 * (y / 400)) / 4 - (y - 400 * (y / 400)) / 100

/-- Number of days from 1970-01-01 to the given date (negative for earlier
dates); extensionally the day count underlying chrono's
`NaiveDateTime::timestamp`. -/
def days_from_civil (d : Date) : Int :=
  yearDays (yadj d) + doyOf d.month d.day - 719468

/-- Unix timestamp (seconds) of a naive date-time, chrono
`NaiveDateTime::timestamp`. -/
def tsOf (n : NaiveDateTime) : Int := 86400 * days_from_civil n.date + n.sod

/-! ### The repository's year-normalization functions -/

/-- Function `map_two_digit_year` from src/src/main.rs. -/
def map_two_digit_year (y : Int) : Int :=
  if 0 ≤ y ∧ y ≤ 68 then 2000 + y
  else if 69 ≤ y ∧ y ≤ 99 then 1900 + y
  else y

/-- Function `fix_two_digit_year` from src/src/main.rs.  The `.expect(...)` on
`NaiveDate::from_ymd_opt` (a panic when the reconstructed date is invalid)
is modelled by the `none` case. -/
def fix_two_digit_year (ndt : NaiveDateTime) : Option NaiveDateTime :=
  let y := ndt.date.year
  if 0 ≤ y ∧ y ≤ 99 then
    (from_ymd_opt (map_two_digit_year y) ndt.date.month ndt.date.day).map
      (fun date => ⟨date, ndt.sod⟩)
  else some ndt

/-! ### Parsing of the five chrono format strings used by the program

`"%H:%M"` compiles to the items [Numeric(Hour), Literal ":", Numeric(Minute)];
`"%H:%M %d-%m-%Y"` to [Numeric(Hour), Literal ":", Numeric(Minute), Space,
Numeric(Day), Literal "-", Numeric(Month), Literal "-", Numeric(Year)], and
analogously for the `%y` and `/` variants.  Numeric items skip leading
whitespace and scan 1..=width digits (width 2 for hour, minute, day, month
and `%y`, width 4 for an unsigned `%Y`, unbounded after an explicit sign);
the `Space` item skips whitespace, which is absorbed by the following
numeric item's own skipping.  `set_hour` rejects values above 23 as soon
as the hour item is scanned. -/

/-- Parse the `%H:%M` item sequence shared by all five formats, returning
hour, minute and the remaining input. -/
def parseHM (l : List Char) : Option (Nat × Nat × List Char) :=
  match scanNumber 2 (trimL l) with
  | none => none
  | some (h, r1) =>
    if h ≤ 23 then
      match expectChar ':' r1 with
      | none => none
      | some r2 =>
        match scanNumber 2 (trimL r2) with
        | none => none
        | some (mi, r3) => some (h, mi, r3)
    else none

/-- Parse the ` %d<sep>%m<sep>` item sequence of the four date formats,
returning day, month and the remaining input (positioned at the year). -/
def parseDayMonth (sep : Char) (l : List Char) : Option (Nat × Nat × List Char) :=
  match scanNumber 2 (trimL l) with
  | none => none
  | some (d, r1) =>
    match expectChar sep r1 with
    | none => none
    | some r2 =>
      match scanNumber 2 (trimL r2) with
      | none => none
      | some (mo, r3) =>
        match expectChar sep r3 with
        | none => none
        | some r4 => some (d, mo, r4)

/-- chrono's parse of a `%Y` item (after its own whitespace skipping):
an optional explicit sign followed by unboundedly many digits (with the
i64 overflow check of `scan::number`), or 1..=4 digits when unsigned. -/
def parseYearFull (l : List Char) : Option (Int × List Char) :=
  match l with
  | [] => none
  | c :: rest =>
    if c = '-' then
      match scanNumber 18446744073709551615 rest with
      | none => none
      | some (v, r) => if v ≤ 9223372036854775807 then some (-(v : Int), r) else none
    else if c = '+' then
      match scanNumber 18446744073709551615 rest with
      | none => none
      | some (v, r) => if v ≤ 9223372036854775807 then some ((v : Int), r) else none
    else
      (scanNumber 4 (c :: rest)).map (fun p => ((p.1 : Int), p.2))

/-- Resolution of the collected fields into a `NaiveDateTime`
(chrono `Parsed::to_naive_date` / `to_naive_time`): `set_year` requires an
i32 value, `from_ymd_opt` validates the date, and the minute is validated
by `NaiveTime::from_hms_opt`. -/
def mkDT (y : Int) (mo d h mi : Nat) : Option NaiveDateTime :=
  if -2147483648 ≤ y ∧ y ≤ 2147483647 then
    match from_ymd_opt y mo d with
    | none => none
    | some date => if mi ≤ 59 then some ⟨date, (h : Int) * 3600 + (mi : Int) * 60⟩ else none
  else none

/-- The four date+time layouts of `parse_input`, as data (separator and
year width). -/
inductive DateFmt where
  | dashY4
  | dashY2
  | slashY4
  | slashY2
deriving DecidableEq

/-- Date separator of a layout. -/
def DateFmt.sep : DateFmt → Char
  | .dashY4 => '-'
  | .dashY2 => '-'
  | .slashY4 => '/'
  | .slashY2 => '/'

/-- Whether the layout uses the two-digit `%y` year. -/
def DateFmt.twoDigit : DateFmt → Bool
  | .dashY4 => false
  | .dashY2 => true
  | .slashY4 => false
  | .slashY2 => true

/-- chrono `NaiveDateTime::parse_from_str` for one of the four date+time layouts.
A `%y` year of value r resolves to r + 2000 when r < 69 and to r + 1900
otherwise (chrono `resolve_year` for a lone two-digit year). -/
def parseFmt (f : DateFmt) (l : List Char) : Option NaiveDateTime :=
  match parseHM l with
  | none => none
  | some (h, mi, r1) =>
    match parseDayMonth f.sep r1 with
    | none => none
    | some (d, mo, r2) =>
      if f.twoDigit then
        match scanNumber 2 (trimL r2) with
        | none => none
        | some (ry, r3) =>
          if r3 = [] then
            mkDT (if ry < 69 then (ry : Int) + 2000 else (ry : Int) + 1900) mo d h mi
          else none
      else
        match parseYearFull (trimL r2) with
        | none => none
        | some (y, r3) => if r3 = [] then mkDT y mo d h mi else none

/-- The order in which `parse_input` tries the four layouts. -/
def formatOrder : List DateFmt := [.dashY4, .dashY2, .slashY4, .slashY2]

/-- The `for fmt in formats` loop of `parse_input`: first successful parse
wins. -/
def tryFormats : List DateFmt → List Char → Option NaiveDateTime
  | [], _ => none
  | f :: fs, l =>
    match parseFmt f l with
    | some ndt => some ndt
    | none => tryFormats fs l

/-- chrono `NaiveTime::parse_from_str(s, "%H:%M")`: the whole input must be
consumed and the minute is validated by `from_hms_opt`; the result is the
second of the day. -/
def parseTimeOnly (l : List Char) : Option Int :=
  match parseHM l with
  | none => none
  | some (h, mi, r) =>
    if r = [] then
      if mi ≤ 59 then some ((h : Int) * 3600 + (mi : Int) * 60) else none
    else none

/-- The error message of `parse_input`. -/
def unrecognizedMsg : String :=
  "Unrecognized format. Try: HH:MM or HH:MM dd-mm-yy|yyyy or HH:MM dd/mm/yy|yyyy"

deriving instance DecidableEq for Except

/-! ### chrono-tz fixed-timespan model of Australia/Brisbane -/

/-- chrono-tz `FixedTimespan`: a period with a fixed UTC offset, daylight
saving offset and abbreviation. -/
structure FixedTimespan where
  utc_offset : Int
  dst_offset : Int
  name : String
deriving DecidableEq

/-- Total offset of a timespan (chrono-tz adds the two components). -/
def FixedTimespan.total (t : FixedTimespan) : Int := t.utc_offset + t.dst_offset

/-- chrono-tz `FixedTimespanSet`: the first timespan plus a sorted list of
(UTC transition second, timespan) pairs. -/
structure FixedTimespanSet where
  first : FixedTimespan
  rest : List (Int × FixedTimespan)

/-- The timespans of a set with their UTC start and end bounds
(`none` for unbounded). -/
def spansGo (prev : Option Int) (cur : FixedTimespan) :
    List (Int × FixedTimespan) → List (Option Int × Option Int × FixedTimespan)
  | [] => [(prev, none, cur)]
  | (t, sp) :: rest => (prev, some t, cur) :: spansGo (some t) sp rest

/-- All timespans of a set with their UTC bounds. -/
def spansOf (z : FixedTimespanSet) : List (Option Int × Option Int × FixedTimespan) :=
  spansGo none z.first z.rest

/-- Lookup of the timespan containing a UTC instant: the timespan of the
last transition at or before `t`.  On a sorted transition list this is
what chrono-tz's binary search in `offset_from_utc_datetime` computes. -/
def offsetFromUtcGo (cur : FixedTimespan) : List (Int × FixedTimespan) → Int → FixedTimespan
  | [], _ => cur
  | (tr, sp) :: rest, t => if tr ≤ t then offsetFromUtcGo sp rest t else cur

/-- chrono-tz `offset_from_utc_datetime`, keyed by the UTC timestamp. -/
def offsetFromUtc (z : FixedTimespanSet) (t : Int) : FixedTimespan :=
  offsetFromUtcGo z.first z.rest t

/-- Helper: shorthand for the timestamp of a civil UTC date-time, used to
write the transition table the way the tz database states the rules. -/
def mkts (y : Int) (mo d h mi s : Nat) : Int :=
  tsOf ⟨⟨y, mo, d⟩, (h : Int) * 3600 + (mi : Int) * 60 + (s : Int)⟩

/-- Australia/Brisbane as a chrono-tz fixed-timespan set, transcribed from
the tz database (zone `Australia/Brisbane`, rules `Aus` and the Queensland
rules): local mean time +10:12:08 until 1895, standard time +10:00
afterwards, with daylight saving +1h in 1917, 1942-1944 (war time),
1971-1972 and 1989-1992. -/
def Brisbane : FixedTimespanSet where
  first := ⟨36728, 0, "LMT"⟩
  rest := [
    (mkts 1895 1 1 0 0 0 - 36728, ⟨36000, 0, "AEST"⟩),
    (mkts 1917 1 1 0 1 0 - 36000, ⟨36000, 3600, "AEDT"⟩),
    (mkts 1917 3 25 2 0 0 - 39600, ⟨36000, 0, "AEST"⟩),
    (mkts 1942 1 1 2 0 0 - 36000, ⟨36000, 3600, "AEDT"⟩),
    (mkts 1942 3 29 2 0 0 - 39600, ⟨36000, 0, "AEST"⟩),
    (mkts 1942 9 27 2 0 0 - 36000, ⟨36000, 3600, "AEDT"⟩),
    (mkts 1943 3 28 2 0 0 - 39600, ⟨36000, 0, "AEST"⟩),
    (mkts 1943 10 3 2 0 0 - 36000, ⟨36000, 3600, "AEDT"⟩),
    (mkts 1944 3 26 2 0 0 - 39600, ⟨36000, 0, "AEST"⟩),
    (mkts 1971 10 31 2 0 0 - 36000, ⟨36000, 3600, "AEDT"⟩),
    (mkts 1972 2 27 2 0 0 - 36000, ⟨36000, 0, "AEST"⟩),
    (mkts 1989 10 29 2 0 0 - 36000, ⟨36000, 3600, "AEDT"⟩),
    (mkts 1990 3 4 2 0 0 - 36000, ⟨36000, 0, "AEST"⟩),
    (mkts 1990 10 28 2 0 0 - 36000, ⟨36000, 3600, "AEDT"⟩),
    (mkts 1991 3 3 2 0 0 - 36000, ⟨36000, 0, "AEST"⟩),
    (mkts 1991 10 27 2 0 0 - 36000, ⟨36000, 3600, "AEDT"⟩),
    (mkts 1992 3 1 2 0 0 - 36000, ⟨36000, 0, "AEST"⟩)]

/-! ### Conversion engine (`main`, choices "1" and "2") -/

/-- A chrono `DateTime<Tz>`: the UTC civil date-time together with the
resolved offset information. -/
structure ZonedDateTime where
  utcCivil : NaiveDateTime
  span : FixedTimespan
deriving DecidableEq

/-- chrono `DateTime::naive_local`: the UTC civil value shifted by the offset. -/
def ZonedDateTime.naiveLocal (z : ZonedDateTime) : NaiveDateTime :=
  addSecs z.utcCivil z.span.total

/-- chrono `LocalResult` (`MappedLocalTime`). -/
inductive LocalRes where
  | nonexistent
  | single (z : ZonedDateTime)
  | ambiguous (a b : ZonedDateTime)
deriving DecidableEq

/-- The timespans whose local extent contains the given local timestamp
(a timespan covering UTC seconds [s, e) covers local seconds
[s + total, e + total)). -/
def localCandidates (z : FixedTimespanSet) (t : Int) :
    List (Option Int × Option Int × FixedTimespan) :=
  (spansOf z).filter (fun c =>
    (match c.1 with
     | none => true
     | some s => decide (s + c.2.2.total ≤ t)) &&
    (match c.2.1 with
     | none => true
     | some e => decide (t < e + c.2.2.total)))

/-- chrono-tz `from_local_datetime`: resolve a local civil date-time to
zero, one or two UTC instants; a successful resolution stores the local
value minus the offset as the UTC civil value. -/
def from_local_datetime (z : FixedTimespanSet) (ndt : NaiveDateTime) : LocalRes :=
  match localCandidates z (tsOf ndt) with
  | [] => .nonexistent
  | [c] => .single ⟨addSecs ndt (-c.2.2.total), c.2.2⟩
  | c1 :: c2 :: _ =>
    .ambiguous ⟨addSecs ndt (-c1.2.2.total), c1.2.2⟩ ⟨addSecs ndt (-c2.2.2.total), c2.2.2⟩

/-- The expression `Utc.from_utc_datetime(&ndt).with_timezone(&Brisbane)` of main. -/
def withTimezoneBrisbane (ndt : NaiveDateTime) : ZonedDateTime :=
  ⟨ndt, offsetFromUtc Brisbane (tsOf ndt)⟩

/-- The expression `Utc::now().with_timezone(&Brisbane).date_naive()`: the current
calendar date as observed in Brisbane, given the current UTC civil
date-time. -/
def brisbaneToday (nowUtc : NaiveDateTime) : Date :=
  (addSecs nowUtc (offsetFromUtc Brisbane (tsOf nowUtc)).total).date

/-! ### `parse_input` -/

/-- Function `parse_input` from src/src/main.rs, generalized over the order in
which the four date+time layouts are tried; the real function uses
`formatOrder`.  `nowUtc` is the UTC civil date-time at the moment
`Utc::now()` is called.  The outer `Option` models the panic inside
`fix_two_digit_year` (`none` = panic), the inner `Except` is the
function's `Result`. -/
def parseInputWith (order : List DateFmt) (nowUtc : NaiveDateTime) (l : List Char) :
    Option (Except String NaiveDateTime) :=
  match parseTimeOnly l with
  | some sod => some (.ok ⟨brisbaneToday nowUtc, sod⟩)
  | none =>
    match tryFormats order l with
    | some ndt => (fix_two_digit_year ndt).map Except.ok
    | none => some (.error unrecognizedMsg)

/-- Function `parse_input` from src/src/main.rs. -/
def parse_input (nowUtc : NaiveDateTime) (l : List Char) : Option (Except String NaiveDateTime) :=
  parseInputWith formatOrder nowUtc l

/-! ### Output formatting and the conversion/printing logic of `main` -/

/-- Zero-padded two-digit decimal rendering. -/
def pad2S (n : Nat) : String :=
  if n < 10 then "0" ++ toString n else toString n

/-- Zero-padded four-digit decimal rendering of a year, with a leading
sign for negative years (chrono `Numeric::Year` with zero padding). -/
def pad4S (y : Int) : String :=
  let a := y.natAbs
  let digits :=
    if a < 10 then "000" ++ toString a
    else if a < 100 then "00" ++ toString a
    else if a < 1000 then "0" ++ toString a
    else toString a
  if y < 0 then "-" ++ digits else digits

/-- Hour of the day of a naive date-time. -/
def NaiveDateTime.hour (n : NaiveDateTime) : Nat := (n.sod / 3600).toNat

/-- Minute within the hour of a naive date-time. -/
def NaiveDateTime.minute (n : NaiveDateTime) : Nat := ((n.sod / 60) % 60).toNat

/-- Second within the minute of a naive date-time. -/
def NaiveDateTime.second (n : NaiveDateTime) : Nat := (n.sod % 60).toNat

/-- chrono `DateTime<Utc>::to_rfc3339()`: RFC 3339 with an explicit +00:00
offset. -/
def to_rfc3339_utc (n : NaiveDateTime) : String :=
  pad4S n.date.year ++ "-" ++ pad2S n.date.month ++ "-" ++ pad2S n.date.day ++ "T" ++
    pad2S n.hour ++ ":" ++ pad2S n.minute ++ ":" ++ pad2S n.second ++ "+00:00"

/-- The call `local_dt.format("%Y-%m-%d %H:%M %Z")` for a zoned value: formats the
local civil value and the timespan abbreviation. -/
def formatLocal (z : ZonedDateTime) : String :=
  pad4S z.naiveLocal.date.year ++ "-" ++ pad2S z.naiveLocal.date.month ++ "-" ++
    pad2S z.naiveLocal.date.day ++ " " ++ pad2S z.naiveLocal.hour ++ ":" ++
    pad2S z.naiveLocal.minute ++ " " ++ z.span.name

/-- The conversion-and-printing part of `main` after a successful parse:
given the parsed naive date-time and the trimmed menu choice, the result
is either the ordered list of stdout lines or the (exit code, stderr
message) of the failing branch. -/
def runChoice (ndt : NaiveDateTime) (choice : String) : Except (Nat × String) (List String) :=
  if choice = "1" then
    match from_local_datetime Brisbane ndt with
    | .single local_dt =>
      .ok ["UTC: " ++ to_rfc3339_utc local_dt.utcCivil,
           "Brisbane: " ++ formatLocal local_dt]
    | .nonexistent => .error (4, "Non-existent local time in Brisbane (unexpected without DST)")
    | .ambiguous _ _ => .error (5, "Ambiguous local time in Brisbane (rare; no DST in Brisbane)")
  else if choice = "2" then
    .ok ["Brisbane: " ++ formatLocal (withTimezoneBrisbane ndt),
         "UTC: " ++ to_rfc3339_utc ndt]
  else .error (6, "Invalid choice, expected 1 or 2")

/-- Two-digit zero-padded decimal rendering of `n < 100`, as a character
list. -/
def twoDigits (n : Nat) : List Char := [Nat.digitChar (n / 10), Nat.digitChar (n % 10)]

/-- Four-digit zero-padded decimal rendering of `n < 10000`. -/
def fourDigits (n : Nat) : List Char :=
  [Nat.digitChar (n / 1000), Nat.digitChar (n / 100 % 10),
   Nat.digitChar (n / 10 % 10), Nat.digitChar (n % 10)]

/-- The textual input `HH:MM dd-mm-<year digits>` with zero-padded
two-digit time, day and month fields. -/
def renderDT (h mi d mo : Nat) (ytail : List Char) : List Char :=
  twoDigits h ++ ':' :: (twoDigits mi ++ ' ' ::
    (twoDigits d ++ '-' :: (twoDigits mo ++ '-' :: ytail)))

/-- Executable strict sortedness check for a list of integers. -/
def sortedB : List Int → Bool
  | [] => true
  | [_] => true
  | a :: b :: rest => decide (a < b) && sortedB (b :: rest)

/-! ### Helper lemmas: digits, whitespace, rendering -/

theorem isDigitB_bounds {c : Char} (h : isDigitB c = true) : 48 ≤ c.toNat ∧ c.toNat ≤ 57 := by
  simpa [isDigitB] using h

theorem isDigitB_digitChar {k : Nat} (h : k ≤ 9) : isDigitB (Nat.digitChar k) = true := by
  interval_cases k <;> decide

theorem isWsB_digitChar {k : Nat} (h : k ≤ 9) : isWsB (Nat.digitChar k) = false := by
  interval_cases k <;> decide

theorem digitVal_digitChar {k : Nat} (h : k ≤ 9) : digitVal (Nat.digitChar k) = k := by
  interval_cases k <;> decide

theorem digitChar_ne_dash {k : Nat} (h : k ≤ 9) : Nat.digitChar k ≠ '-' := by
  interval_cases k <;> decide

theorem digitChar_ne_plus {k : Nat} (h : k ≤ 9) : Nat.digitChar k ≠ '+' := by
  interval_cases k <;> decide

theorem trimL_cons_notWs {c : Char} {l : List Char} (h : isWsB c = false) :
    trimL (c :: l) = c :: l := by
  simp [trimL, List.dropWhile, h]

theorem trimL_cons_ws {c : Char} {l : List Char} (h : isWsB c = true) :
    trimL (c :: l) = trimL l := by
  simp [trimL, List.dropWhile, h]

theorem scanDigitsAux_zero (acc : Nat) (l : List Char) : scanDigitsAux 0 acc l = (acc, l) := by
  cases l <;> rfl

theorem scanNumber_twoDigits {n : Nat} (hn : n < 100) (rest : List Char) :
    scanNumber 2 (twoDigits n ++ rest) = some (n, rest) := by
  have h1 : n / 10 ≤ 9 := by omega
  have h2 : n % 10 ≤ 9 := by omega
  simp only [twoDigits, List.cons_append, List.nil_append, scanNumber,
    isDigitB_digitChar h1, if_true, scanDigitsAux, isDigitB_digitChar h2,
    digitVal_digitChar h1, digitVal_digitChar h2, scanDigitsAux_zero]
  have : n / 10 * 10 + n % 10 = n := by omega
  rw [this]

theorem scanNumber4_twoDigits {n : Nat} (hn : n < 100) :
    scanNumber 4 (twoDigits n) = some (n, []) := by
  have h1 : n / 10 ≤ 9 := by omega
  have h2 : n % 10 ≤ 9 := by omega
  simp only [twoDigits, scanNumber, isDigitB_digitChar h1, if_true, scanDigitsAux,
    isDigitB_digitChar h2, digitVal_digitChar h1, digitVal_digitChar h2]
  have : n / 10 * 10 + n % 10 = n := by omega
  rw [this]

theorem scanNumber_fourDigits {n : Nat} (hn : n < 10000) (rest : List Char) :
    scanNumber 4 (fourDigits n ++ rest) = some (n, rest) := by
  have h1 : n / 1000 ≤ 9 := by omega
  have h2 : n / 100 % 10 ≤ 9 := by omega
  have h3 : n / 10 % 10 ≤ 9 := by omega
  have h4 : n % 10 ≤ 9 := by omega
  simp only [fourDigits, List.cons_append, List.nil_append, scanNumber,
    isDigitB_digitChar h1, if_true, scanDigitsAux, isDigitB_digitChar h2,
    isDigitB_digitChar h3, isDigitB_digitChar h4, digitVal_digitChar h1,
    digitVal_digitChar h2, digitVal_digitChar h3, digitVal_digitChar h4, scanDigitsAux_zero]
  have : ((n / 1000 * 10 + n / 100 % 10) * 10 + n / 10 % 10) * 10 + n % 10 = n := by omega
  rw [this]

theorem trimL_twoDigits {n : Nat} (hn : n < 100) (rest : List Char) :
    trimL (twoDigits n ++ rest) = twoDigits n ++ rest := by
  have h1 : n / 10 ≤ 9 := by omega
  simp only [twoDigits, List.cons_append]
  exact trimL_cons_notWs (isWsB_digitChar h1)

theorem trimL_fourDigits {n : Nat} (hn : n < 10000) (rest : List Char) :
    trimL (fourDigits n ++ rest) = fourDigits n ++ rest := by
  have h1 : n / 1000 ≤ 9 := by omega
  simp only [fourDigits, List.cons_append]
  exact trimL_cons_notWs (isWsB_digitChar h1)


theorem parseHM_render {h mi : Nat} (hh : h ≤ 23) (hmi : mi < 100) (rest : List Char) :
    parseHM (twoDigits h ++ ':' :: (twoDigits mi ++ rest)) = some (h, mi, rest) := by
  have h100 : h < 100 := by omega
  have e1 := trimL_twoDigits h100 (':' :: (twoDigits mi ++ rest))
  have e2 := scanNumber_twoDigits h100 (':' :: (twoDigits mi ++ rest))
  have e3 : expectChar ':' (':' :: (twoDigits mi ++ rest)) = some (twoDigits mi ++ rest) := by
    simp [expectChar]
  have e4 := trimL_twoDigits hmi rest
  have e5 := scanNumber_twoDigits hmi rest
  simp only [parseHM, e1, e2, e3, e4, e5, hh, if_true]

theorem parseHM_render_badHour {h mi : Nat} (hh : 24 ≤ h) (h100 : h < 100) (hmi : mi < 100)
    (rest : List Char) :
    parseHM (twoDigits h ++ ':' :: (twoDigits mi ++ rest)) = none := by
  have e1 := trimL_twoDigits h100 (':' :: (twoDigits mi ++ rest))
  have e2 := scanNumber_twoDigits h100 (':' :: (twoDigits mi ++ rest))
  simp only [parseHM, e1, e2]
  rw [if_neg (by omega)]

theorem parseDayMonth_render (sep : Char) {d mo : Nat} (hd : d < 100) (hmo : mo < 100)
    (rest : List Char) :
    parseDayMonth sep (' ' :: (twoDigits d ++ sep :: (twoDigits mo ++ sep :: rest))) =
      some (d, mo, rest) := by
  have e0 : trimL (' ' :: (twoDigits d ++ sep :: (twoDigits mo ++ sep :: rest))) =
      trimL (twoDigits d ++ sep :: (twoDigits mo ++ sep :: rest)) := trimL_cons_ws (by decide)
  have e1 := trimL_twoDigits hd (sep :: (twoDigits mo ++ sep :: rest))
  have e2 := scanNumber_twoDigits hd (sep :: (twoDigits mo ++ sep :: rest))
  have e3 : expectChar sep (sep :: (twoDigits mo ++ sep :: rest)) =
      some (twoDigits mo ++ sep :: rest) := by simp [expectChar]
  have e4 := trimL_twoDigits hmo (sep :: rest)
  have e5 := scanNumber_twoDigits hmo (sep :: rest)
  have e6 : expectChar sep (sep :: rest) = some rest := by simp [expectChar]
  simp only [parseDayMonth, e0, e1, e2, e3, e4, e5, e6]

theorem parseYearFull_fourDigits {n : Nat} (hn : n < 10000) :
    parseYearFull (fourDigits n) = some ((n : Int), []) := by
  have h1 : n / 1000 ≤ 9 := by omega
  have hd : isDigitB (Nat.digitChar (n / 1000)) = true := isDigitB_digitChar h1
  have e2 : scanNumber 4 (fourDigits n) = some (n, []) := by
    have := scanNumber_fourDigits hn []
    simpa using this
  simp only [fourDigits, parseYearFull]
  rw [if_neg (digitChar_ne_dash h1), if_neg (digitChar_ne_plus h1)]
  have e2' : scanNumber 4
      [Nat.digitChar (n / 1000), Nat.digitChar (n / 100 % 10),
       Nat.digitChar (n / 10 % 10), Nat.digitChar (n % 10)] = some (n, []) := by
    simpa [fourDigits] using e2
  rw [e2']
  rfl

theorem parseYearFull_twoDigits {n : Nat} (hn : n < 100) :
    parseYearFull (twoDigits n) = some ((n : Int), []) := by
  have h1 : n / 10 ≤ 9 := by omega
  have e2 : scanNumber 4 (twoDigits n) = some (n, []) := scanNumber4_twoDigits hn
  simp only [twoDigits, parseYearFull]
  rw [if_neg (digitChar_ne_dash h1), if_neg (digitChar_ne_plus h1)]
  have e2' : scanNumber 4 [Nat.digitChar (n / 10), Nat.digitChar (n % 10)] = some (n, []) := by
    simpa [twoDigits] using e2
  rw [e2']
  rfl

/-! ### C8: the two-digit year mapping -/

/-- C8: `map_two_digit_year` is total and deterministic: it maps y in
[0,68] to 2000+y, y in [69,99] to 1900+y (i.e. 1969-1999), and leaves
every year outside [0,99] unchanged. -/
theorem map_two_digit_year_spec :
    (∀ y : Int, 0 ≤ y → y ≤ 68 → map_two_digit_year y = 2000 + y) ∧
    (∀ y : Int, 69 ≤ y → y ≤ 99 → map_two_digit_year y = 1900 + y) ∧
    (∀ y : Int, y < 0 ∨ 99 < y → map_two_digit_year y = y) := by
  refine ⟨fun y h1 h2 => ?_, fun y h1 h2 => ?_, fun y h => ?_⟩ <;>
    unfold map_two_digit_year <;> split_ifs <;> omega

/-- Witness for C8 at concrete inputs 5, 99 and 2025. -/
theorem map_two_digit_year_spec_witness :
    map_two_digit_year 5 = 2005 ∧ map_two_digit_year 99 = 1999 ∧
      map_two_digit_year 2025 = 2025 :=
  ⟨map_two_digit_year_spec.1 5 (by decide) (by decide),
   map_two_digit_year_spec.2.1 99 (by decide) (by decide),
   map_two_digit_year_spec.2.2 2025 (Or.inr (by decide))⟩

/-! ### C10: only the time-only path consults the clock -/

/-- C10: when the input does not parse as a bare HH:MM time,
`parse_input` is a function of the input string alone: the current
instant (the `Utc::now()` argument) does not influence the result. -/
theorem parse_input_clock_independent (l : List Char) (h : parseTimeOnly l = none)
    (now1 now2 : NaiveDateTime) : parse_input now1 l = parse_input now2 l := by
  unfold parse_input parseInputWith
  rw [h]

/-- Witness for C10: a date-carrying input parsed at two different
current instants. -/
theorem parse_input_clock_independent_witness :
    parse_input ⟨⟨1970, 1, 1⟩, 0⟩ "21:00 22-09-2025".data =
      parse_input ⟨⟨2025, 9, 22⟩, 43200⟩ "21:00 22-09-2025".data :=
  parse_input_clock_independent _ (by decide) _ _

/-! ### C7: the UTC-to-local direction is total -/

/-- C7: for every naive date-time, menu choice "2" (UTC to Brisbane)
succeeds: interpreting the value as UTC is total and unambiguous, and the
exit-4 / exit-5 zone-resolution error branches are unreachable on this
path. -/
theorem utc_to_local_total (ndt : NaiveDateTime) :
    runChoice ndt "2" =
      .ok ["Brisbane: " ++ formatLocal (withTimezoneBrisbane ndt),
           "UTC: " ++ to_rfc3339_utc ndt] := by
  rfl

/-! ### C9: order of the output lines -/

/-- C9: on success the line order depends on the direction: choice "1"
(Brisbane to UTC) prints the UTC line first and the Brisbane line second,
choice "2" (UTC to Brisbane) prints the Brisbane line first and the UTC
line second. -/
theorem output_line_order (ndt : NaiveDateTime) :
    (∀ z, from_local_datetime Brisbane ndt = .single z →
      runChoice ndt "1" =
        .ok ["UTC: " ++ to_rfc3339_utc z.utcCivil, "Brisbane: " ++ formatLocal z]) ∧
    runChoice ndt "2" =
      .ok ["Brisbane: " ++ formatLocal (withTimezoneBrisbane ndt),
           "UTC: " ++ to_rfc3339_utc ndt] := by
  refine ⟨fun z h => ?_, rfl⟩
  unfold runChoice
  rw [if_pos rfl, h]

/-- Witness for C9 on the spec's example 2025-09-22 21:00 Brisbane. -/
theorem output_line_order_witness :
    runChoice ⟨⟨2025, 9, 22⟩, 75600⟩ "1" =
      .ok ["UTC: " ++ to_rfc3339_utc ⟨⟨2025, 9, 22⟩, 39600⟩,
           "Brisbane: " ++ formatLocal ⟨⟨⟨2025, 9, 22⟩, 39600⟩, ⟨36000, 0, "AEST"⟩⟩] :=
  (output_line_order ⟨⟨2025, 9, 22⟩, 75600⟩).1
    ⟨⟨⟨2025, 9, 22⟩, 39600⟩, ⟨36000, 0, "AEST"⟩⟩ (by decide)

/-! ### C2: the two-digit-year fix-up is safe -/

theorem isLeapYear_map_nat :
    ∀ n : Nat, n < 100 →
      isLeapYear ((n : Int)) = isLeapYear (map_two_digit_year ((n : Int))) := by
  decide

theorem isLeapYear_map {y : Int} (h0 : 0 ≤ y) (h99 : y ≤ 99) :
    isLeapYear y = isLeapYear (map_two_digit_year y) := by
  have hy : y = ((y.toNat : Nat) : Int) := by omega
  rw [hy]
  exact isLeapYear_map_nat y.toNat (by omega)

theorem daysInMonth_map {y : Int} (h0 : 0 ≤ y) (h99 : y ≤ 99) (m : Nat) :
    daysInMonth (map_two_digit_year y) m = daysInMonth y m := by
  have hl := isLeapYear_map h0 h99
  rcases m with _ | _ | _ | _ | _ | _ | _ | _ | _ | _ | _ | _ | m <;>
    simp [daysInMonth, hl]

/-- Helper: the two-digit-year fix-up on a valid date with year in
[0,99] succeeds and replaces only the year. -/
theorem fix_two_digit_year_maps (ndt : NaiveDateTime)
    (h0 : 0 ≤ ndt.date.year) (h99 : ndt.date.year ≤ 99) (hv : dateValid ndt.date) :
    fix_two_digit_year ndt =
      some ⟨⟨map_two_digit_year ndt.date.year, ndt.date.month, ndt.date.day⟩, ndt.sod⟩ := by
  obtain ⟨⟨hm1, hm12, hd1, hdim⟩, _⟩ := hv
  have hrange : yearInRange (map_two_digit_year ndt.date.year) := by
    unfold map_two_digit_year yearInRange
    split_ifs <;> omega
  have hval : dateValid ⟨map_two_digit_year ndt.date.year, ndt.date.month, ndt.date.day⟩ := by
    refine ⟨⟨hm1, hm12, hd1, ?_⟩, hrange⟩
    rw [daysInMonth_map h0 h99]
    exact hdim
  unfold fix_two_digit_year
  rw [if_pos ⟨h0, h99⟩]
  unfold from_ymd_opt
  rw [if_pos hval]
  rfl

/-- C2: for a naive date-time whose year lies in [0,99] and whose
month/day form a valid date, `fix_two_digit_year` succeeds (the `expect`
cannot panic) and returns the value with the year replaced by the
two-digit-year mapping and month, day and time-of-day unchanged: a
month/day valid in year y remains valid in the mapped year. -/
theorem fix_two_digit_year_safe (ndt : NaiveDateTime)
    (h0 : 0 ≤ ndt.date.year) (h99 : ndt.date.year ≤ 99) (hv : dateValid ndt.date) :
    fix_two_digit_year ndt =
      some ⟨⟨map_two_digit_year ndt.date.year, ndt.date.month, ndt.date.day⟩, ndt.sod⟩ :=
  fix_two_digit_year_maps ndt h0 h99 hv

/-- Witness for C2 at the leap date 0004-02-29 (year 4 maps to 2004,
which is again a leap year). -/
theorem fix_two_digit_year_safe_witness :
    fix_two_digit_year ⟨⟨4, 2, 29⟩, 3600⟩ =
      some ⟨⟨map_two_digit_year 4, 2, 29⟩, 3600⟩ :=
  fix_two_digit_year_safe ⟨⟨4, 2, 29⟩, 3600⟩ (by decide) (by decide) (by decide)

/-! ### C5: the time-only path uses the Brisbane calendar date -/

theorem parseTimeOnly_render {h mi : Nat} (hh : h ≤ 23) (hmi : mi ≤ 59) :
    parseTimeOnly (twoDigits h ++ ':' :: twoDigits mi) =
      some ((h : Int) * 3600 + (mi : Int) * 60) := by
  have e1 : twoDigits h ++ ':' :: twoDigits mi =
      twoDigits h ++ ':' :: (twoDigits mi ++ ([] : List Char)) := by simp
  rw [e1]
  have e2 := parseHM_render hh (by omega : mi < 100) ([] : List Char)
  simp only [parseTimeOnly, e2, if_pos rfl, if_pos hmi, if_true]

/-- C5: every valid zero-padded HH:MM input (hour in [0,23], minute in
[0,59], nothing else) takes the time-only path successfully, and the date
component of the result is the current calendar date as observed in the
Brisbane zone at the given current instant (`Utc::now()` value), not the
UTC date of that instant. -/
theorem time_only_uses_brisbane_date (now : NaiveDateTime) (h mi : Nat)
    (hh : h ≤ 23) (hmi : mi ≤ 59) :
    parse_input now (twoDigits h ++ ':' :: twoDigits mi) =
      some (.ok ⟨brisbaneToday now, (h : Int) * 3600 + (mi : Int) * 60⟩) := by
  unfold parse_input parseInputWith
  rw [parseTimeOnly_render hh hmi]

/-- Witness for C5: input 14:30 at the 1970 epoch. -/
theorem time_only_uses_brisbane_date_witness :
    parse_input ⟨⟨1970, 1, 1⟩, 0⟩ "14:30".data =
      some (.ok ⟨brisbaneToday ⟨⟨1970, 1, 1⟩, 0⟩, (14 : Int) * 3600 + (30 : Int) * 60⟩) := by
  have e : "14:30".data = twoDigits 14 ++ ':' :: twoDigits 30 := by decide
  rw [e]
  exact time_only_uses_brisbane_date ⟨⟨1970, 1, 1⟩, 0⟩ 14 30 (by decide) (by decide)

/-! ### C6: the error for an invalid bare time -/

theorem parseFmt_none_of_parseHM_none {f : DateFmt} {l : List Char}
    (h : parseHM l = none) : parseFmt f l = none := by
  simp only [parseFmt, h]

theorem tryFormats_none_of_parseHM_none {l : List Char} (h : parseHM l = none)
    (fs : List DateFmt) : tryFormats fs l = none := by
  induction fs with
  | nil => rfl
  | cons f fs ih => simp only [tryFormats, parseFmt_none_of_parseHM_none h, ih]

theorem parseFmt_none_of_empty_rest {f : DateFmt} {l : List Char} {h mi : Nat}
    (hp : parseHM l = some (h, mi, [])) : parseFmt f l = none := by
  have hdm : parseDayMonth f.sep [] = none := rfl
  simp only [parseFmt, hp, hdm]

/-- C6 counterexample: the input "24:00" matches the bare-time shape but
is not a valid time of day, yet `parse_input` reports exactly the same
single error value that it reports for an input matching none of the
layouts — there is no distinct invalid-time error kind in the code. -/
theorem invalid_time_error_counterexample :
    parse_input ⟨⟨1970, 1, 1⟩, 0⟩ "24:00".data = some (.error unrecognizedMsg) ∧
    parse_input ⟨⟨1970, 1, 1⟩, 0⟩ "not-a-time".data = some (.error unrecognizedMsg) := by
  constructor <;> decide

/-- C6 (amended): an input of the bare-time shape HH:MM whose hour or
minute is out of range fails with the single unrecognized-format error
message, the same error used for inputs matching none of the layouts
(`parse_input` has only one error value; there is no separate
InvalidTime kind). -/
theorem invalid_bare_time_same_error (now : NaiveDateTime) (h mi : Nat)
    (h100 : h < 100) (hmi100 : mi < 100) (hbad : 24 ≤ h ∨ 60 ≤ mi) :
    parse_input now (twoDigits h ++ ':' :: twoDigits mi) =
      some (.error unrecognizedMsg) := by
  have e1 : twoDigits h ++ ':' :: twoDigits mi =
      twoDigits h ++ ':' :: (twoDigits mi ++ ([] : List Char)) := by simp
  rw [e1]
  by_cases hh : h ≤ 23
  · have hp := parseHM_render hh hmi100 ([] : List Char)
    have ht : parseTimeOnly (twoDigits h ++ ':' :: (twoDigits mi ++ [])) = none := by
      simp only [parseTimeOnly, hp, if_pos rfl, if_true]
      rw [if_neg (by omega)]
    have hf : ∀ f : DateFmt,
        parseFmt f (twoDigits h ++ ':' :: (twoDigits mi ++ [])) = none :=
      fun f => parseFmt_none_of_empty_rest hp
    unfold parse_input parseInputWith
    rw [ht]
    simp only [formatOrder, tryFormats, hf]
  · have hp := parseHM_render_badHour (by omega) h100 hmi100 ([] : List Char)
    have ht : parseTimeOnly (twoDigits h ++ ':' :: (twoDigits mi ++ [])) = none := by
      simp only [parseTimeOnly, hp]
    unfold parse_input parseInputWith
    rw [ht, tryFormats_none_of_parseHM_none hp formatOrder]

/-- Witness for the amended C6 at input 24:00. -/
theorem invalid_bare_time_same_error_witness :
    parse_input ⟨⟨1970, 1, 1⟩, 0⟩ (twoDigits 24 ++ ':' :: twoDigits 0) =
      some (.error unrecognizedMsg) :=
  invalid_bare_time_same_error ⟨⟨1970, 1, 1⟩, 0⟩ 24 0 (by decide) (by decide)
    (Or.inl (by decide))

theorem mkDT_some {y : Int} {mo d mi : Nat} (h : Nat) (hv : dateValid ⟨y, mo, d⟩) (hmi : mi ≤ 59) :
    mkDT y mo d h mi = some ⟨⟨y, mo, d⟩, (h : Int) * 3600 + (mi : Int) * 60⟩ := by
  have hi32 : -2147483648 ≤ y ∧ y ≤ 2147483647 := by
    obtain ⟨_, hr⟩ := hv
    have hr' : -262144 ≤ y ∧ y ≤ 262143 := hr
    omega
  simp only [mkDT, from_ymd_opt, if_pos hi32, if_pos hv, if_pos hmi]

theorem mkDT_inv {y : Int} {mo d h mi : Nat} {a : NaiveDateTime}
    (hm : mkDT y mo d h mi = some a) :
    dateValid ⟨y, mo, d⟩ ∧ mi ≤ 59 ∧
      a = ⟨⟨y, mo, d⟩, (h : Int) * 3600 + (mi : Int) * 60⟩ := by
  unfold mkDT from_ymd_opt at hm
  split_ifs at hm with h1 h2 h3
  simp only [Option.some.injEq] at hm
  exact ⟨h2, h3, hm.symm⟩

theorem expectChar_inv {c : Char} {l r : List Char} (h : expectChar c l = some r) :
    l = c :: r := by
  cases l with
  | nil => simp [expectChar] at h
  | cons x xs =>
    simp only [expectChar] at h
    split_ifs at h with hx
    simp only [Option.some.injEq] at h
    rw [hx, h]

theorem scanNumber2_full_chars {u : List Char} {v : Nat}
    (h : scanNumber 2 u = some (v, [])) :
    parseYearFull u = some ((v : Int), []) ∧ v < 100 := by
  cases u with
  | nil => simp [scanNumber] at h
  | cons c rest =>
    simp only [scanNumber] at h
    split_ifs at h with hc
    have hb := isDigitB_bounds hc
    simp only [Option.some.injEq] at h
    cases rest with
    | nil =>
      simp only [scanDigitsAux, Prod.mk.injEq] at h
      have hcd : c ≠ '-' := by
        intro he
        rw [he] at hc
        simp [isDigitB] at hc
      have hcp : c ≠ '+' := by
        intro he
        rw [he] at hc
        simp [isDigitB] at hc
      have hv : v = digitVal c := h.1.symm
      have hvb : v < 100 := by
        unfold digitVal at hv
        omega
      refine ⟨?_, hvb⟩
      simp only [parseYearFull, if_neg hcd, if_neg hcp, scanNumber, hc, if_true,
        scanDigitsAux, Option.map_some]
      rw [hv]
      rfl
    | cons c2 rest2 =>
      simp only [scanDigitsAux] at h
      split_ifs at h with hc2
      · have hb2 := isDigitB_bounds hc2
        cases rest2 with
        | nil =>
          simp only [scanDigitsAux, Prod.mk.injEq] at h
          have hcd : c ≠ '-' := by
            intro he
            rw [he] at hc
            simp [isDigitB] at hc
          have hcp : c ≠ '+' := by
            intro he
            rw [he] at hc
            simp [isDigitB] at hc
          have hv : v = digitVal c * 10 + digitVal c2 := h.1.symm
          have hvb : v < 100 := by
            unfold digitVal at hv
            omega
          refine ⟨?_, hvb⟩
          simp only [parseYearFull, if_neg hcd, if_neg hcp, scanNumber, hc, if_true,
            scanDigitsAux, hc2, Option.map_some]
          rw [hv]
          rfl
        | cons c3 rest3 =>
          simp only [scanDigitsAux, Prod.mk.injEq] at h
          exact absurd h.2 (by simp)
      · simp only [Prod.mk.injEq] at h
        exact absurd h.2 (by simp)

theorem parseDayMonth_inv_sep {sep1 sep2 : Char} {l : List Char} {a b : Nat × Nat × List Char}
    (h1 : parseDayMonth sep1 l = some a) (h2 : parseDayMonth sep2 l = some b) :
    sep1 = sep2 := by
  unfold parseDayMonth at h1 h2
  cases hs : scanNumber 2 (trimL l) with
  | none => rw [hs] at h1; simp at h1
  | some p =>
    obtain ⟨d, r1⟩ := p
    rw [hs] at h1 h2
    simp only at h1 h2
    cases he1 : expectChar sep1 r1 with
    | none => rw [he1] at h1; simp at h1
    | some r2 =>
      cases he2 : expectChar sep2 r1 with
      | none => rw [he2] at h2; simp at h2
      | some r2' =>
        have g1 := expectChar_inv he1
        have g2 := expectChar_inv he2
        rw [g1] at g2
        exact (List.cons.injEq _ _ _ _ ▸ g2).1.symm ▸ rfl

set_option maxRecDepth 4096 in
theorem parseFmt_inv {f : DateFmt} {l : List Char} {a : NaiveDateTime}
    (hp : parseFmt f l = some a) :
    ∃ h mi r1 d mo r2, parseHM l = some (h, mi, r1) ∧
      parseDayMonth f.sep r1 = some (d, mo, r2) ∧
      ((f.twoDigit = true ∧ ∃ ry, scanNumber 2 (trimL r2) = some (ry, []) ∧
          mkDT (if ry < 69 then (ry : Int) + 2000 else (ry : Int) + 1900) mo d h mi = some a) ∨
       (f.twoDigit = false ∧ ∃ y, parseYearFull (trimL r2) = some (y, []) ∧
          mkDT y mo d h mi = some a)) := by
  unfold parseFmt at hp
  cases hhm : parseHM l with
  | none => rw [hhm] at hp; simp at hp
  | some t =>
    obtain ⟨h, mi, r1⟩ := t
    rw [hhm] at hp
    simp only at hp
    cases hdm : parseDayMonth f.sep r1 with
    | none => rw [hdm] at hp; simp at hp
    | some t2 =>
      obtain ⟨d, mo, r2⟩ := t2
      rw [hdm] at hp
      simp only at hp
      refine ⟨h, mi, r1, d, mo, r2, rfl, hdm, ?_⟩
      cases htd : f.twoDigit with
      | true =>
        rw [htd] at hp
        simp only [if_true] at hp
        cases hsc : scanNumber 2 (trimL r2) with
        | none => rw [hsc] at hp; simp at hp
        | some p =>
          obtain ⟨ry, r3⟩ := p
          rw [hsc] at hp
          simp only at hp
          by_cases hr3 : r3 = []
          · rw [if_pos hr3] at hp
            subst hr3
            exact Or.inl ⟨rfl, ry, rfl, hp⟩
          · rw [if_neg hr3] at hp
            simp at hp
      | false =>
        rw [htd] at hp
        simp only [Bool.false_eq_true, if_false] at hp
        cases hsc : parseYearFull (trimL r2) with
        | none => rw [hsc] at hp; simp at hp
        | some p =>
          obtain ⟨y, r3⟩ := p
          rw [hsc] at hp
          simp only at hp
          by_cases hr3 : r3 = []
          · rw [if_pos hr3] at hp
            subst hr3
            exact Or.inr ⟨rfl, y, rfl, hp⟩
          · rw [if_neg hr3] at hp
            simp at hp

theorem fix_mixed {ry mo d h mi : Nat} {a b : NaiveDateTime} (hry : ry < 100)
    (ha : mkDT ((ry : Int)) mo d h mi = some a)
    (hb : mkDT (if ry < 69 then (ry : Int) + 2000 else (ry : Int) + 1900) mo d h mi = some b) :
    fix_two_digit_year a = fix_two_digit_year b := by
  obtain ⟨hva, hmia, haeq⟩ := mkDT_inv ha
  obtain ⟨hvb, hmib, hbeq⟩ := mkDT_inv hb
  subst haeq
  subst hbeq
  have hmap : map_two_digit_year ((ry : Int)) =
      (if ry < 69 then (ry : Int) + 2000 else (ry : Int) + 1900) := by
    unfold map_two_digit_year
    split_ifs <;> omega
  have hyb : ¬(0 ≤ (if ry < 69 then (ry : Int) + 2000 else (ry : Int) + 1900) ∧
      (if ry < 69 then (ry : Int) + 2000 else (ry : Int) + 1900) ≤ 99) := by
    split_ifs <;> omega
  have hfa : fix_two_digit_year ⟨⟨(ry : Int), mo, d⟩, (h : Int) * 3600 + (mi : Int) * 60⟩ =
      some ⟨⟨(if ry < 69 then (ry : Int) + 2000 else (ry : Int) + 1900), mo, d⟩,
            (h : Int) * 3600 + (mi : Int) * 60⟩ := by
    unfold fix_two_digit_year
    rw [if_pos (by constructor <;> omega : 0 ≤ ((ry : Int)) ∧ ((ry : Int)) ≤ 99)]
    simp only
    rw [hmap]
    unfold from_ymd_opt
    rw [if_pos hvb]
    rfl
  have hfb : fix_two_digit_year
      ⟨⟨(if ry < 69 then (ry : Int) + 2000 else (ry : Int) + 1900), mo, d⟩,
        (h : Int) * 3600 + (mi : Int) * 60⟩ =
      some ⟨⟨(if ry < 69 then (ry : Int) + 2000 else (ry : Int) + 1900), mo, d⟩,
            (h : Int) * 3600 + (mi : Int) * 60⟩ := by
    unfold fix_two_digit_year
    rw [if_neg hyb]
  rw [hfa, hfb]

theorem parseFmt_agree {f g : DateFmt} {l : List Char} {a b : NaiveDateTime}
    (hf : parseFmt f l = some a) (hg : parseFmt g l = some b) :
    fix_two_digit_year a = fix_two_digit_year b := by
  obtain ⟨h1, mi1, r1, d1, mo1, r2, hhm1, hdm1, hy1⟩ := parseFmt_inv hf
  obtain ⟨h2, mi2, r1', d2, mo2, r2', hhm2, hdm2, hy2⟩ := parseFmt_inv hg
  have hhm12 := hhm1.symm.trans hhm2
  simp only [Option.some.injEq, Prod.mk.injEq] at hhm12
  obtain ⟨e1, e2, e3⟩ := hhm12
  subst e1
  subst e2
  subst e3
  have hsep : f.sep = g.sep := parseDayMonth_inv_sep hdm1 hdm2
  rw [← hsep] at hdm2
  have hdm12 := hdm1.symm.trans hdm2
  simp only [Option.some.injEq, Prod.mk.injEq] at hdm12
  obtain ⟨e4, e5, e6⟩ := hdm12
  subst e4
  subst e5
  subst e6
  rcases hy1 with ⟨htd1, ry1, hsc1, hmk1⟩ | ⟨htd1, y1, hsc1, hmk1⟩ <;>
    rcases hy2 with ⟨htd2, ry2, hsc2, hmk2⟩ | ⟨htd2, y2, hsc2, hmk2⟩
  · -- both two-digit
    have e := hsc1.symm.trans hsc2
    simp only [Option.some.injEq, Prod.mk.injEq] at e
    rw [e.1] at hmk1
    rw [Option.some_injective _ (hmk1.symm.trans hmk2)]
  · -- f two-digit, g four-digit
    obtain ⟨hpy, hlt⟩ := scanNumber2_full_chars hsc1
    have e := hpy.symm.trans hsc2
    simp only [Option.some.injEq, Prod.mk.injEq] at e
    rw [← e.1] at hmk2
    exact (fix_mixed hlt hmk2 hmk1).symm
  · -- f four-digit, g two-digit
    obtain ⟨hpy, hlt⟩ := scanNumber2_full_chars hsc2
    have e := hpy.symm.trans hsc1
    simp only [Option.some.injEq, Prod.mk.injEq] at e
    rw [← e.1] at hmk1
    exact fix_mixed hlt hmk1 hmk2
  · -- both four-digit
    have e := hsc1.symm.trans hsc2
    simp only [Option.some.injEq, Prod.mk.injEq] at e
    rw [e.1] at hmk1
    rw [Option.some_injective _ (hmk1.symm.trans hmk2)]

theorem tryFormats_none_iff {fs : List DateFmt} {l : List Char} :
    tryFormats fs l = none ↔ ∀ f ∈ fs, parseFmt f l = none := by
  induction fs with
  | nil => simp [tryFormats]
  | cons f fs ih =>
    cases hp : parseFmt f l with
    | some a => simp [tryFormats, hp]
    | none => simp [tryFormats, hp, ih]

theorem tryFormats_some_mem {fs : List DateFmt} {l : List Char} {a : NaiveDateTime}
    (h : tryFormats fs l = some a) : ∃ f ∈ fs, parseFmt f l = some a := by
  induction fs with
  | nil => simp [tryFormats] at h
  | cons f fs ih =>
    unfold tryFormats at h
    cases hp : parseFmt f l with
    | some b =>
      rw [hp] at h
      simp only [Option.some.injEq] at h
      exact ⟨f, by simp, by rw [hp, h]⟩
    | none =>
      rw [hp] at h
      obtain ⟨g, hm, hg⟩ := ih h
      exact ⟨g, by simp [hm], hg⟩

/-- C1 (amended): the value returned by `parse_input` on the time+date
path is independent of the order in which the four formats are tried:
trying them in any permutation of the implemented order yields the same
result for every input and every current instant.  (It is not true that
at most one of the four layouts parses: a two-digit year also satisfies
the four-digit `%Y` layout; but any two successful layouts agree after
the two-digit-year fix-up.) -/
theorem parse_input_order_independent (order : List DateFmt)
    (hperm : order.Perm formatOrder) (now : NaiveDateTime) (l : List Char) :
    parseInputWith order now l = parse_input now l := by
  unfold parse_input parseInputWith
  cases ht : parseTimeOnly l with
  | some sod => rfl
  | none =>
    cases h1 : tryFormats order l with
    | none =>
      cases h2 : tryFormats formatOrder l with
      | none => rfl
      | some b =>
        obtain ⟨g, hgm, hg⟩ := tryFormats_some_mem h2
        have hnone := (tryFormats_none_iff.mp h1) g (hperm.mem_iff.mpr hgm)
        rw [hnone] at hg
        simp at hg
    | some a =>
      cases h2 : tryFormats formatOrder l with
      | none =>
        obtain ⟨g, hgm, hg⟩ := tryFormats_some_mem h1
        have hnone := (tryFormats_none_iff.mp h2) g (hperm.mem_iff.mp hgm)
        rw [hnone] at hg
        simp at hg
      | some b =>
        obtain ⟨ga, hma, hga⟩ := tryFormats_some_mem h1
        obtain ⟨gb, hmb, hgb⟩ := tryFormats_some_mem h2
        show (fix_two_digit_year a).map Except.ok = (fix_two_digit_year b).map Except.ok
        rw [parseFmt_agree hga hgb]

/-- Witness for the amended C1: trying the formats in reversed order on a
two-digit-year input gives the same final result. -/
theorem parse_input_order_independent_witness :
    parseInputWith [.slashY2, .slashY4, .dashY2, .dashY4] ⟨⟨1970, 1, 1⟩, 0⟩
        "21:00 22-09-25".data =
      parse_input ⟨⟨1970, 1, 1⟩, 0⟩ "21:00 22-09-25".data :=
  parse_input_order_independent [.slashY2, .slashY4, .dashY2, .dashY4]
    (by decide) ⟨⟨1970, 1, 1⟩, 0⟩ "21:00 22-09-25".data

/-- C1 counterexample: on the input "21:00 22-09-25" two different
layouts of the four both parse successfully (the four-digit `%Y` layout
accepts the two-digit year 25), so it is not true that at most one
layout can match a given input. -/
theorem two_formats_both_parse :
    parseFmt .dashY4 "21:00 22-09-25".data = some ⟨⟨25, 9, 22⟩, 75600⟩ ∧
    parseFmt .dashY2 "21:00 22-09-25".data = some ⟨⟨2025, 9, 22⟩, 75600⟩ := by
  constructor <;> decide

theorem daysInMonth_le31 (y : Int) (m : Nat) : daysInMonth y m ≤ 31 := by
  unfold daysInMonth
  split <;> first | omega | (split_ifs <;> omega)

theorem parseFmt_dashY4_render {h mi d mo : Nat} {ytail : List Char} {y : Int}
    (hh : h ≤ 23) (hmi : mi < 100) (hd : d < 100) (hmo : mo < 100)
    (hy : parseYearFull (trimL ytail) = some (y, [])) :
    parseFmt .dashY4 (renderDT h mi d mo ytail) = mkDT y mo d h mi := by
  have e1 := parseHM_render hh hmi
    (' ' :: (twoDigits d ++ '-' :: (twoDigits mo ++ '-' :: ytail)))
  have e2 := parseDayMonth_render '-' hd hmo ytail
  simp only [parseFmt, renderDT, e1, e2, DateFmt.sep, DateFmt.twoDigit,
    Bool.false_eq_true, if_false, hy, if_pos rfl, if_true]

theorem parseTimeOnly_renderDT {h mi d mo : Nat} (hh : h ≤ 23) (hmi : mi < 100)
    (ytail : List Char) :
    parseTimeOnly (renderDT h mi d mo ytail) = none := by
  have e1 := parseHM_render hh hmi
    (' ' :: (twoDigits d ++ '-' :: (twoDigits mo ++ '-' :: ytail)))
  simp only [parseTimeOnly, renderDT, e1]
  rw [if_neg (by simp)]

theorem parse_input_renderDT {h mi d mo : Nat} {ytail : List Char} {y : Int}
    {a : NaiveDateTime} (hh : h ≤ 23) (hmi : mi < 100) (hd : d < 100) (hmo : mo < 100)
    (hy : parseYearFull (trimL ytail) = some (y, []))
    (hmk : mkDT y mo d h mi = some a) (now : NaiveDateTime) :
    parse_input now (renderDT h mi d mo ytail) = (fix_two_digit_year a).map Except.ok := by
  unfold parse_input parseInputWith
  rw [parseTimeOnly_renderDT hh hmi ytail]
  have hfmt := (parseFmt_dashY4_render hh hmi hd hmo hy).trans hmk
  simp only [formatOrder, tryFormats, hfmt]

theorem fix_two_digit_year_id {ndt : NaiveDateTime}
    (h : ¬(0 ≤ ndt.date.year ∧ ndt.date.year ≤ 99)) :
    fix_two_digit_year ndt = some ndt := by
  unfold fix_two_digit_year
  rw [if_neg h]

theorem map_two_digit_year_range {y : Int} (h0 : 0 ≤ y) (h99 : y ≤ 99) :
    1969 ≤ map_two_digit_year y ∧ map_two_digit_year y ≤ 2068 := by
  unfold map_two_digit_year
  split_ifs <;> omega

/-- C4: for every valid day/month and two-digit year (and any time of
day), the dash-separated input with the two-digit year parses to the same
result as the corresponding input with the mapped four-digit year, namely
the naive date-time with the mapped year; in particular
"21:00 22-09-25" and "21:00 22-09-2025" produce identical parse results
(see the witness). -/
theorem two_digit_year_input_equivalent (now : NaiveDateTime) (h mi d mo y2 : Nat)
    (hh : h ≤ 23) (hmi : mi ≤ 59) (hy2 : y2 < 100)
    (hval : dateValid ⟨map_two_digit_year ((y2 : Int)), mo, d⟩) :
    parse_input now (renderDT h mi d mo (twoDigits y2)) =
      parse_input now
        (renderDT h mi d mo (fourDigits (map_two_digit_year ((y2 : Int))).toNat)) ∧
    parse_input now (renderDT h mi d mo (twoDigits y2)) =
      some (.ok ⟨⟨map_two_digit_year ((y2 : Int)), mo, d⟩,
                 (h : Int) * 3600 + (mi : Int) * 60⟩) := by
  have hvalc := hval
  obtain ⟨⟨hm1, hm12, hd1, hdim⟩, hyr⟩ := hvalc
  have hm1' : 1 ≤ mo := hm1
  have hm12' : mo ≤ 12 := hm12
  have hd1' : 1 ≤ d := hd1
  have hdim' : d ≤ daysInMonth (map_two_digit_year ((y2 : Int))) mo := hdim
  have hmr := map_two_digit_year_range (by omega : (0:Int) ≤ (y2 : Int))
    (by omega : ((y2 : Int)) ≤ 99)
  have hd100 : d < 100 := by
    have := daysInMonth_le31 (map_two_digit_year ((y2 : Int))) mo
    omega
  have hmo100 : mo < 100 := by omega
  -- validity of the date in the raw two-digit year
  have hval2 : dateValid ⟨(y2 : Int), mo, d⟩ := by
    refine ⟨⟨hm1', hm12', hd1', ?_⟩,
      ⟨by show (-262144 : Int) ≤ ((y2 : Int)); omega,
       by show ((y2 : Int)) ≤ 262143; omega⟩⟩
    show d ≤ daysInMonth ((y2 : Int)) mo
    have := daysInMonth_map (by omega : (0:Int) ≤ (y2 : Int))
      (by omega : ((y2 : Int)) ≤ 99) mo
    omega
  -- the two-digit-year input: format 1 already matches, with year y2
  have hy2parse : parseYearFull (trimL (twoDigits y2)) = some ((y2 : Int), []) := by
    have := trimL_twoDigits hy2 ([] : List Char)
    simp only [List.append_nil] at this
    rw [this]
    exact parseYearFull_twoDigits hy2
  have hmk2 := mkDT_some h hval2 hmi
  have hside2 := parse_input_renderDT hh (by omega) hd100 hmo100 hy2parse hmk2 now
  -- the four-digit-year input
  have htn : ((map_two_digit_year ((y2 : Int))).toNat : Int) =
      map_two_digit_year ((y2 : Int)) := by omega
  have hy4parse : parseYearFull
      (trimL (fourDigits (map_two_digit_year ((y2 : Int))).toNat)) =
      some (map_two_digit_year ((y2 : Int)), []) := by
    have h4 : (map_two_digit_year ((y2 : Int))).toNat < 10000 := by omega
    have := trimL_fourDigits h4 ([] : List Char)
    simp only [List.append_nil] at this
    rw [this]
    rw [parseYearFull_fourDigits h4, htn]
  have hmk4 := mkDT_some h hval hmi
  have hside4 := parse_input_renderDT hh (by omega) hd100 hmo100 hy4parse hmk4 now
  -- evaluate the two fix-ups
  have hfix2 : fix_two_digit_year ⟨⟨(y2 : Int), mo, d⟩,
      (h : Int) * 3600 + (mi : Int) * 60⟩ =
      some ⟨⟨map_two_digit_year ((y2 : Int)), mo, d⟩,
            (h : Int) * 3600 + (mi : Int) * 60⟩ :=
    fix_two_digit_year_maps _ (by show (0 : Int) ≤ ((y2 : Int)); omega)
      (by show ((y2 : Int)) ≤ 99; omega) hval2
  have hfix4 : fix_two_digit_year ⟨⟨map_two_digit_year ((y2 : Int)), mo, d⟩,
      (h : Int) * 3600 + (mi : Int) * 60⟩ =
      some ⟨⟨map_two_digit_year ((y2 : Int)), mo, d⟩,
            (h : Int) * 3600 + (mi : Int) * 60⟩ :=
    fix_two_digit_year_id (by
      show ¬((0 : Int) ≤ map_two_digit_year ((y2 : Int)) ∧
        map_two_digit_year ((y2 : Int)) ≤ 99)
      omega)
  rw [hside2, hside4, hfix2, hfix4]
  exact ⟨rfl, rfl⟩

/-- Witness for C4: the spec's example pair of inputs, parsed at the
epoch. -/
theorem two_digit_year_input_equivalent_witness :
    parse_input ⟨⟨1970, 1, 1⟩, 0⟩ "21:00 22-09-25".data =
      parse_input ⟨⟨1970, 1, 1⟩, 0⟩ "21:00 22-09-2025".data ∧
    parse_input ⟨⟨1970, 1, 1⟩, 0⟩ "21:00 22-09-25".data =
      some (.ok ⟨⟨2025, 9, 22⟩, 75600⟩) := by
  have e1 : "21:00 22-09-25".data = renderDT 21 0 22 9 (twoDigits 25) := by decide
  have e2 : "21:00 22-09-2025".data =
      renderDT 21 0 22 9 (fourDigits (map_two_digit_year ((25 : Nat) : Int)).toNat) := by
    decide
  have hth := two_digit_year_input_equivalent ⟨⟨1970, 1, 1⟩, 0⟩ 21 0 22 9 25
    (by decide) (by decide) (by decide) (by decide)
  constructor
  · rw [e1, e2]
    exact hth.1
  · rw [e1]
    have := hth.2
    simpa using this

/-! ### Calendar day-count lemmas for the round-trip property (C3) -/

theorem daysInMonth_pos {y : Int} {m : Nat} (h1 : 1 ≤ m) (h12 : m ≤ 12) :
    1 ≤ daysInMonth y m := by
  interval_cases m <;> simp [daysInMonth] <;> split_ifs <;> omega

theorem calValid_prevDate {d : Date} (h : calValid d) : calValid (prevDate d) := by
  obtain ⟨h1, h2, h3, h4⟩ := h
  unfold prevDate
  split_ifs with c1 c2
  · exact ⟨h1, h2, by show 1 ≤ d.day - 1; omega,
      by show d.day - 1 ≤ daysInMonth d.year d.month; omega⟩
  · refine ⟨by show 1 ≤ d.month - 1; omega, by show d.month - 1 ≤ 12; omega, ?_, ?_⟩
    · show 1 ≤ daysInMonth d.year (d.month - 1)
      exact daysInMonth_pos (by omega) (by omega)
    · show daysInMonth d.year (d.month - 1) ≤ daysInMonth d.year (d.month - 1)
      exact le_refl _
  · exact ⟨by show 1 ≤ 12; omega, by show (12 : Nat) ≤ 12; omega,
      by show 1 ≤ 31; omega, by show 31 ≤ daysInMonth (d.year - 1) 12; simp [daysInMonth]⟩

theorem nextDate_prevDate {d : Date} (h : calValid d) : nextDate (prevDate d) = d := by
  obtain ⟨h1, h2, h3, h4⟩ := h
  obtain ⟨y, m, dd⟩ := d
  dsimp only at h1 h2 h3 h4
  unfold prevDate
  split_ifs with c1 c2
  · dsimp only at c1
    unfold nextDate
    dsimp only
    rw [if_pos (show dd - 1 < daysInMonth y m by omega)]
    simp only [Date.mk.injEq, true_and, and_true]
    omega
  · dsimp only at c1 c2
    unfold nextDate
    dsimp only
    rw [if_neg (show ¬ daysInMonth y (m - 1) < daysInMonth y (m - 1) by omega),
        if_pos (show m - 1 < 12 by omega)]
    simp only [Date.mk.injEq, true_and, and_true]
    omega
  · dsimp only at c1 c2
    unfold nextDate
    dsimp only
    rw [if_neg (show ¬ (31 : Nat) < daysInMonth (y - 1) 12 by simp [daysInMonth]),
        if_neg (show ¬ (12 : Nat) < 12 by omega)]
    simp only [Date.mk.injEq, true_and, and_true]
    omega

theorem yearDays_succ (y : Int) :
    yearDays y = yearDays (y - 1) + 365 + (if isLeapYear y then 1 else 0) := by
  unfold yearDays isLeapYear
  by_cases h : y % 4 = 0 ∧ (¬ y % 100 = 0 ∨ y % 400 = 0)
  · rw [if_pos (by simpa using h)]
    omega
  · rw [if_neg (by simpa using h)]
    omega

theorem days_nextDate {d : Date} (h : calValid d) :
    days_from_civil (nextDate d) = days_from_civil d + 1 := by
  obtain ⟨h1, h2, h3, h4⟩ := h
  obtain ⟨y, m, dd⟩ := d
  dsimp only at h1 h2 h3 h4
  unfold nextDate
  dsimp only
  split_ifs with c1 c2
  · -- day + 1 within the same month
    unfold days_from_civil yadj doyOf
    dsimp only
    push_cast
    omega
  · -- first day of the next month
    have hdd : dd = daysInMonth y m := by omega
    subst hdd
    have hm11 : m ≤ 11 := by omega
    interval_cases m
    · unfold days_from_civil yadj doyOf mpOf daysInMonth
      norm_num
      omega
    · -- February to March: the leap case
      have e2 : daysInMonth y 2 = if isLeapYear y then 29 else 28 := rfl
      unfold days_from_civil yadj doyOf mpOf
      rw [e2]
      norm_num
      rw [yearDays_succ y]
      by_cases hl : isLeapYear y = true
      · simp [hl]
        omega
      · simp [hl]
        omega
    · unfold days_from_civil yadj doyOf mpOf daysInMonth
      norm_num
      omega
    · unfold days_from_civil yadj doyOf mpOf daysInMonth
      norm_num
      omega
    · unfold days_from_civil yadj doyOf mpOf daysInMonth
      norm_num
      omega
    · unfold days_from_civil yadj doyOf mpOf daysInMonth
      norm_num
      omega
    · unfold days_from_civil yadj doyOf mpOf daysInMonth
      norm_num
      omega
    · unfold days_from_civil yadj doyOf mpOf daysInMonth
      norm_num
      omega
    · unfold days_from_civil yadj doyOf mpOf daysInMonth
      norm_num
      omega
    · unfold days_from_civil yadj doyOf mpOf daysInMonth
      norm_num
      omega
    · unfold days_from_civil yadj doyOf mpOf daysInMonth
      norm_num
      omega
  · -- December 31st to January 1st
    have hm12 : m = 12 := by omega
    subst hm12
    have hdd : dd = 31 := by
      have : daysInMonth y 12 = 31 := rfl
      omega
    subst hdd
    unfold days_from_civil yadj doyOf mpOf
    norm_num
    omega

theorem days_prevDate {d : Date} (h : calValid d) :
    days_from_civil (prevDate d) = days_from_civil d - 1 := by
  have h' := calValid_prevDate h
  have hnd := days_nextDate h'
  rw [nextDate_prevDate h] at hnd
  omega

theorem tsOf_addSecs {n : NaiveDateTime} (hv : ndtValid n) {o : Int}
    (ho1 : -86400 < o) (ho2 : o < 86400) : tsOf (addSecs n o) = tsOf n + o := by
  obtain ⟨⟨hc, _⟩, hs0, hs1⟩ := hv
  obtain ⟨d0, s0⟩ := n
  dsimp only at hc hs0 hs1
  unfold addSecs
  dsimp only
  split_ifs with c1 c2
  · unfold tsOf
    dsimp only
    rw [days_prevDate hc]
    ring
  · unfold tsOf
    dsimp only
    ring
  · unfold tsOf
    dsimp only
    rw [days_nextDate hc]
    ring

theorem addSecs_neg_add {n : NaiveDateTime} (hv : ndtValid n) {o : Int}
    (ho1 : 0 < o) (ho2 : o < 86400) : addSecs (addSecs n (-o)) o = n := by
  obtain ⟨⟨hc, _⟩, hs0, hs1⟩ := hv
  obtain ⟨d0, s0⟩ := n
  dsimp only at hc hs0 hs1
  by_cases c1 : s0 + -o < 0
  · have e1 : addSecs ⟨d0, s0⟩ (-o) = ⟨prevDate d0, s0 + -o + 86400⟩ := by
      unfold addSecs
      dsimp only
      rw [if_pos c1]
    rw [e1]
    unfold addSecs
    dsimp only
    rw [if_neg (show ¬ s0 + -o + 86400 + o < 0 by omega),
        if_neg (show ¬ s0 + -o + 86400 + o < 86400 by omega)]
    rw [nextDate_prevDate hc]
    simp only [NaiveDateTime.mk.injEq, true_and]
    omega
  · have e1 : addSecs ⟨d0, s0⟩ (-o) = ⟨d0, s0 + -o⟩ := by
      unfold addSecs
      dsimp only
      rw [if_neg c1, if_pos (show s0 + -o < 86400 by omega)]
    rw [e1]
    unfold addSecs
    dsimp only
    rw [if_neg (show ¬ s0 + -o + o < 0 by omega),
        if_pos (show s0 + -o + o < 86400 by omega)]
    simp only [NaiveDateTime.mk.injEq, true_and]
    omega

/-! ### Timespan lookup lemmas -/

/-- Every timespan generated after a transition at `t0` starts at or
after `t0`. -/
theorem spansGo_start_ge :
    ∀ (rs : List (Int × FixedTimespan)) (t0 : Int) (cur : FixedTimespan)
      {s e : Option Int} {sp : FixedTimespan},
      List.Chain' (· < ·) (t0 :: rs.map Prod.fst) →
      (s, e, sp) ∈ spansGo (some t0) cur rs →
      ∃ u, s = some u ∧ t0 ≤ u := by
  intro rs
  induction rs with
  | nil =>
    intro t0 cur s e sp _ hmem
    simp only [spansGo, List.mem_singleton, Prod.mk.injEq] at hmem
    exact ⟨t0, hmem.1, le_refl t0⟩
  | cons hd tl ih =>
    intro t0 cur s e sp hch hmem
    obtain ⟨tr, nsp⟩ := hd
    simp only [spansGo, List.mem_cons, Prod.mk.injEq] at hmem
    rcases hmem with ⟨hs, _, _⟩ | htail
    · exact ⟨t0, hs, le_refl t0⟩
    · have hch' : List.Chain' (· < ·) (tr :: tl.map Prod.fst) := by
        simp only [List.map_cons] at hch
        exact hch.tail
      have ht0tr : t0 < tr := by
        simp only [List.map_cons, List.chain'_cons] at hch
        exact hch.1
      obtain ⟨u, hu, htru⟩ := ih tr nsp hch' htail
      exact ⟨u, hu, le_trans (le_of_lt ht0tr) htru⟩

/-- If a timespan of the set covers the UTC instant `t`, the lookup finds
exactly that timespan. -/
theorem offsetFromUtcGo_of_span :
    ∀ (rs : List (Int × FixedTimespan)) (cur : FixedTimespan) (prev : Option Int)
      (t : Int) {s e : Option Int} {sp : FixedTimespan},
      List.Chain' (· < ·) ((prev.toList) ++ rs.map Prod.fst) →
      (s, e, sp) ∈ spansGo prev cur rs →
      (∀ u, s = some u → u ≤ t) →
      (∀ u, e = some u → t < u) →
      offsetFromUtcGo cur rs t = sp := by
  intro rs
  induction rs with
  | nil =>
    intro cur prev t s e sp _ hmem _ _
    simp only [spansGo, List.mem_singleton, Prod.mk.injEq] at hmem
    exact hmem.2.2.symm
  | cons hd tl ih =>
    intro cur prev t s e sp hch hmem hs he
    obtain ⟨tr, nsp⟩ := hd
    simp only [spansGo, List.mem_cons, Prod.mk.injEq] at hmem
    rcases hmem with ⟨hse, hee, hspe⟩ | htail
    · -- the covering span is the current one: t < tr, so the scan stops
      have htlt : t < tr := he tr hee
      unfold offsetFromUtcGo
      rw [if_neg (by omega)]
      exact hspe.symm
    · -- the covering span is further on: its start is at least tr, so tr ≤ t
      have hch2 : List.Chain' (· < ·) (tr :: tl.map Prod.fst) := by
        rcases prev with _ | p
        · simpa using hch
        · simp only [Option.toList, List.cons_append, List.map_cons] at hch
          exact hch.tail
      obtain ⟨u, hu, htru⟩ := spansGo_start_ge tl tr nsp hch2 htail
      have htr : tr ≤ t := le_trans htru (hs u hu)
      unfold offsetFromUtcGo
      rw [if_pos htr]
      exact ih nsp (some tr) t (by simpa using hch2) htail hs he

theorem chain'_of_sortedB : ∀ l : List Int, sortedB l = true → List.Chain' (· < ·) l
  | [], _ => List.chain'_nil
  | [_], _ => by simp
  | a :: b :: rest, h => by
    simp only [sortedB, Bool.and_eq_true, decide_eq_true_eq] at h
    exact List.Chain'.cons h.1 (chain'_of_sortedB (b :: rest) h.2)

/-- The Brisbane transition list is strictly sorted by transition time. -/
theorem brisbane_sorted : List.Chain' (· < ·) (Brisbane.rest.map Prod.fst) :=
  chain'_of_sortedB _ (by decide)

/-- Every Brisbane timespan has a positive total offset smaller than one
day. -/
theorem brisbane_offsets :
    ∀ c ∈ spansOf Brisbane, 0 < c.2.2.total ∧ c.2.2.total < 86400 := by decide

/-- C3: when interpreting a naive date-time as Brisbane wall-clock time
resolves to a single UTC instant (menu choice "1"), converting that UTC
instant back to Brisbane wall-clock time (the UTC-to-local direction of
menu choice "2") yields exactly the original wall-clock value. -/
theorem local_to_utc_roundtrip (ndt : NaiveDateTime) (hv : ndtValid ndt)
    (z : ZonedDateTime) (h : from_local_datetime Brisbane ndt = .single z) :
    (withTimezoneBrisbane z.utcCivil).naiveLocal = ndt := by
  unfold from_local_datetime at h
  cases hc : localCandidates Brisbane (tsOf ndt) with
  | nil =>
    rw [hc] at h
    simp at h
  | cons c cs =>
    cases cs with
    | cons c2 cs2 =>
      rw [hc] at h
      simp at h
    | nil =>
      rw [hc] at h
      simp only [LocalRes.single.injEq] at h
      obtain ⟨s, e, sp⟩ := c
      have hmem : ((s, e, sp) : Option Int × Option Int × FixedTimespan) ∈
          localCandidates Brisbane (tsOf ndt) := by
        rw [hc]
        exact List.mem_singleton_self _
      unfold localCandidates at hmem
      rw [List.mem_filter] at hmem
      obtain ⟨hmem2, hpred⟩ := hmem
      simp only [Bool.and_eq_true] at hpred
      obtain ⟨hp1, hp2⟩ := hpred
      have hob := brisbane_offsets _ hmem2
      dsimp only at hob
      have hsb : ∀ u, s = some u → u ≤ tsOf ndt - sp.total := by
        intro u hu
        rw [hu] at hp1
        simp only [decide_eq_true_eq] at hp1
        omega
      have heb : ∀ u, e = some u → tsOf ndt - sp.total < u := by
        intro u hu
        rw [hu] at hp2
        simp only [decide_eq_true_eq] at hp2
        omega
      subst h
      dsimp only
      have hts : tsOf (addSecs ndt (-sp.total)) = tsOf ndt - sp.total := by
        rw [tsOf_addSecs hv (by omega) (by omega)]
        ring
      unfold withTimezoneBrisbane ZonedDateTime.naiveLocal
      dsimp only
      rw [hts]
      have hlook : offsetFromUtc Brisbane (tsOf ndt - sp.total) = sp := by
        unfold offsetFromUtc
        exact offsetFromUtcGo_of_span Brisbane.rest Brisbane.first none
          (tsOf ndt - sp.total) (by simpa using brisbane_sorted) hmem2 hsb heb
      rw [hlook]
      exact addSecs_neg_add hv (by omega) (by omega)

/-- Witness for C3 at 2025-09-22 21:00 Brisbane wall-clock time. -/
theorem local_to_utc_roundtrip_witness :
    (withTimezoneBrisbane ⟨⟨2025, 9, 22⟩, 39600⟩).naiveLocal = ⟨⟨2025, 9, 22⟩, 75600⟩ :=
  local_to_utc_roundtrip ⟨⟨2025, 9, 22⟩, 75600⟩ (by decide)
    ⟨⟨⟨2025, 9, 22⟩, 39600⟩, ⟨36000, 0, "AEST"⟩⟩ (by decide)
